import Mathlib

/-!
Verification model of the stream session manager implemented in
`src/server.js` of the eroxii-rstp-stream repository.

The server keeps a global `streams` Map keyed by WebSocket port (line 8).
`startStream` (lines 172-248) binds a `WebSocketServer`, spawns the ffmpeg
subprocess, installs stdout/stderr/close/error handlers and registers the
session; `stopStream` (lines 250-277) kills the subprocess, closes the
WebSocket server and deletes the registry entry.  The HTTP handler for
`/api/start-stream` (lines 110-135) rejects a start when the port is
already registered.  Node's event loop is single threaded: every HTTP
request handler and every subprocess/WebSocket event handler runs to
completion before the next one starts, so the whole server is modelled as
a state machine whose steps are those handler executions.
-/

namespace Server

/-- A byte chunk as delivered by the transcoder's standard output
(a Node `Buffer`), modelled as the list of its byte values. -/
abbrev Chunk := List Nat

/-- A viewer socket held in the relay's client set (`wss.clients`).
`joinedAt` records how many chunks had already been relayed by this
session when the connection was accepted (the `'connection'` handler at
lines 234-240 installs no replay: a fresh socket has seen nothing).
`vopen` models `readyState === 1` (WebSocket.OPEN, line 203); `received`
is the ordered list of chunks passed to `client.send` for this socket. -/
structure Viewer where
  joinedAt : Nat
  vopen : Bool
  received : List Chunk
deriving DecidableEq

/-- The live objects created by one `startStream` invocation
(server.js lines 172-248): the `WebSocketServer` bound at line 176, the
ffmpeg child process spawned at line 179, and the info object stored into
the `streams` map at lines 227-232.  `iid` identifies the invocation
(closures capture these objects directly, so events address an instance,
not a registry key).  `totalBytes` is the `totalBytes: 0` field of the
stored info object (line 231); `localTotalBytes` is the closure-local
`let totalBytes = 0` of line 196 which the stdout handler increments.
`published` is the sequence of chunks the stdout `'data'` handler has
processed, `stderrSeen`/`surfacedDiag` the stderr chunks seen and the
ones actually logged (lines 209-214). -/
structure StreamInst where
  iid : Nat
  port : Nat
  rtspUrl : String
  ffmpegAlive : Bool
  wssClosed : Bool
  viewers : List Viewer
  published : List Chunk
  stderrSeen : List String
  surfacedDiag : List String
  totalBytes : Nat
  localTotalBytes : Nat
deriving DecidableEq

/-- The whole server state: the global `streams` Map (port to instance id,
line 8) plus every instance ever created.  `nextIid` supplies fresh
instance ids. -/
structure ServerState where
  nextIid : Nat
  instances : List StreamInst
  streams : List (Nat × Nat)
deriving DecidableEq

/-- A control-plane JSON result as produced by the server
(`success`/`message`, optionally `ws_url` and `port`). -/
structure ApiResult where
  success : Bool
  message : String
  ws_url : Option String
  port : Option Nat
deriving DecidableEq

/-- One element of the `/api/streams` response (lines 156-166). -/
structure StreamInfo where
  port : Nat
  rtsp_url : String
  ws_url : String
  active : Bool
deriving DecidableEq

/-- Test whether the association list holding the `streams` Map has an
entry for key `k` (`streams.has`). -/
def mapHas (m : List (Nat × Nat)) (k : Nat) : Bool :=
  match m with
  | [] => false
  | kv :: rest => kv.1 == k || mapHas rest k

/-- Look up key `k` (`streams.get`). -/
def mapGet (m : List (Nat × Nat)) (k : Nat) : Option Nat :=
  match m with
  | [] => none
  | kv :: rest => if kv.1 = k then some kv.2 else mapGet rest k

/-- Remove key `k` (`streams.delete`). -/
def mapDelete (m : List (Nat × Nat)) (k : Nat) : List (Nat × Nat) :=
  match m with
  | [] => []
  | kv :: rest => if kv.1 = k then mapDelete rest k else kv :: mapDelete rest k

/-- Insert or update key `k` (`streams.set`): a JS Map updates an existing
key in place and appends a missing key in insertion order. -/
def mapSet (m : List (Nat × Nat)) (k v : Nat) : List (Nat × Nat) :=
  if mapHas m k then m.map (fun kv => if kv.1 = k then (k, v) else kv)
  else m ++ [(k, v)]

/-- Number of entries for key `k` in the registry. -/
def countKey (m : List (Nat × Nat)) (k : Nat) : Nat :=
  match m with
  | [] => 0
  | kv :: rest => (if kv.1 = k then 1 else 0) + countKey rest k

/-- Find the instance with id `iid` among the live objects. -/
def getInst (l : List StreamInst) (iid : Nat) : Option StreamInst :=
  match l with
  | [] => none
  | i :: rest => if i.iid = iid then some i else getInst rest iid

/-- Apply `f` to the instance with id `iid`, leaving the others alone
(the way an event handler mutates exactly the objects its closure
captured). -/
def updInst (l : List StreamInst) (iid : Nat) (f : StreamInst → StreamInst) : List StreamInst :=
  l.map fun i => if i.iid = iid then f i else i

/-- Mark the viewer at position `n` closed (the ws library removes a
closed socket from further broadcasts; `readyState` leaves OPEN). -/
def closeViewerAt (l : List Viewer) (n : Nat) : List Viewer :=
  match l, n with
  | [], _ => []
  | v :: rest, 0 => { v with vopen := false } :: rest
  | v :: rest, Nat.succ m => v :: closeViewerAt rest m

/-- Decide whether `sub` occurs at the head of `s`. -/
def startsWithChars : List Char → List Char → Bool
  | [], _ => true
  | _ :: _, [] => false
  | a :: as, b :: bs => a == b && startsWithChars as bs

/-- Decide whether `sub` occurs anywhere in `s`
(JavaScript `String.prototype.includes`). -/
def hasSubstrChars (sub : List Char) : List Char → Bool
  | [] => startsWithChars sub []
  | c :: rest => startsWithChars sub (c :: rest) || hasSubstrChars sub rest

/-- The progress-line test of the stderr handler (line 211):
`msg.includes('frame=')`. -/
def containsFrameMarker (msg : String) : Bool :=
  hasSubstrChars "frame=".toList msg.toList

/-- Derive the viewer URL from the port, as done at lines 160 and 245. -/
def wsUrlOf (p : Nat) : String := s!"ws://127.0.0.1:{p}"

/-- The freshly created live objects of one `startStream` call: a bound
WebSocket server, a spawned subprocess, no viewers, no output yet, and
the info object's `totalBytes` field initialised to 0 (line 231). -/
def newInst (rtspUrl : String) (wsPort : Nat) (nid : Nat) : StreamInst :=
  { iid := nid
    port := wsPort
    rtspUrl := rtspUrl
    ffmpegAlive := true
    wssClosed := false
    viewers := []
    published := []
    stderrSeen := []
    surfacedDiag := []
    totalBytes := 0
    localTotalBytes := 0 }

/-- The body of `startStream` (server.js lines 172-248): bind a
`WebSocketServer` on `wsPort` (line 176), spawn ffmpeg (line 179),
initialise the closure-local byte counter to 0 (line 196), store the
session info object into the `streams` map with `totalBytes: 0`
(lines 227-232) and synchronously return a success result (lines
242-247).  The function has no failure path: spawn errors surface later
through the `'error'` event, never through this return value. -/
def startStream (rtspUrl : String) (wsPort : Nat) (s : ServerState) :
    ApiResult × ServerState :=
  ({ success := true
     message := s!"Stream started on port {wsPort}"
     ws_url := some (wsUrlOf wsPort)
     port := some wsPort },
   { s with
       nextIid := s.nextIid + 1
       instances := s.instances ++ [newInst rtspUrl wsPort s.nextIid]
       streams := mapSet s.streams wsPort s.nextIid })

/-- The `/api/start-stream` request handler (lines 110-135): reject with
`success: false` when the port is already registered (lines 117-124),
otherwise run `startStream`. -/
def apiStartStream (rtspUrl : String) (wsPort : Nat) (s : ServerState) :
    ApiResult × ServerState :=
  if mapHas s.streams wsPort then
    ({ success := false
       message := s!"Port {wsPort} is already in use"
       ws_url := none
       port := none }, s)
  else startStream rtspUrl wsPort s

/-- The body of `stopStream` (lines 250-277): on a missing key return the
`No stream found` failure without touching anything; otherwise kill the
ffmpeg process (line 262), close the WebSocket server (line 267), delete
the registry entry (line 270) and return success carrying the port. -/
def stopStream (wsPort : Nat) (s : ServerState) : ApiResult × ServerState :=
  match mapGet s.streams wsPort with
  | none =>
    ({ success := false
       message := s!"No stream found on port {wsPort}"
       ws_url := none
       port := none }, s)
  | some iid =>
    ({ success := true
       message := s!"Stream on port {wsPort} stopped"
       ws_url := none
       port := some wsPort },
     { s with
         instances := updInst s.instances iid
           (fun i => { i with ffmpegAlive := false, wssClosed := true })
         streams := mapDelete s.streams wsPort })

/-- The ffmpeg stdout `'data'` handler (lines 198-207): add the chunk
length to the closure-local counter and send the chunk to every client
whose `readyState` is OPEN.  The info object's `totalBytes` field is
never written. -/
def onStdoutData (iid : Nat) (chunk : Chunk) (s : ServerState) : ServerState :=
  { s with
      instances := updInst s.instances iid fun i =>
        { i with
            localTotalBytes := i.localTotalBytes + chunk.length
            published := i.published ++ [chunk]
            viewers := i.viewers.map fun v =>
              if v.vopen then { v with received := v.received ++ [chunk] } else v } }

/-- The ffmpeg stderr `'data'` handler (lines 209-214): remember the
message, and log it only when it does not contain the `frame=` progress
marker. -/
def onStderrData (iid : Nat) (msg : String) (s : ServerState) : ServerState :=
  { s with
      instances := updInst s.instances iid fun i =>
        { i with
            stderrSeen := i.stderrSeen ++ [msg]
            surfacedDiag :=
              if containsFrameMarker msg then i.surfacedDiag
              else i.surfacedDiag ++ [msg] } }

/-- The ffmpeg `'close'` and `'error'` handlers (lines 216-224): the
subprocess is gone (exited, killed out of band, or failed to spawn), and
the handler then calls `stopStream(wsPort)` on the captured port. -/
def onProcExit (iid : Nat) (s : ServerState) : ServerState :=
  match getInst s.instances iid with
  | none => s
  | some inst =>
    let s1 : ServerState :=
      { s with
          instances := updInst s.instances iid fun i =>
            { i with ffmpegAlive := false } }
    (stopStream inst.port s1).2

/-- The `wss.on('connection')` handler (lines 234-240): a closed server
accepts nobody; otherwise the fresh socket joins the client set having
received nothing, with its join point at the current end of the
published sequence. -/
def onWsConnect (iid : Nat) (s : ServerState) : ServerState :=
  { s with
      instances := updInst s.instances iid fun i =>
        if i.wssClosed then i
        else
          { i with
              viewers := i.viewers ++
                [{ joinedAt := i.published.length, vopen := true, received := [] }] } }

/-- A viewer socket closing (`ws.on('close')`, lines 237-239): the socket
at position `vidx` stops being OPEN and drops out of future broadcasts. -/
def onWsClose (iid vidx : Nat) (s : ServerState) : ServerState :=
  { s with
      instances := updInst s.instances iid fun i =>
        { i with viewers := closeViewerAt i.viewers vidx } }

/-- The `/api/streams` handler (lines 156-166): map every registry entry
to its port, source URL, derived ws URL and `active: true`. -/
def listStreams (s : ServerState) : List StreamInfo :=
  s.streams.filterMap fun kv =>
    (getInst s.instances kv.2).map fun info =>
      { port := kv.1
        rtsp_url := info.rtspUrl
        ws_url := wsUrlOf kv.1
        active := true }

/-- One unit of work of Node's event loop, as relevant to the session
manager: an HTTP control request or a subprocess/WebSocket event. -/
inductive Event where
  | reqStart (rtspUrl : String) (wsPort : Nat)
  | reqStop (wsPort : Nat)
  | stdoutData (iid : Nat) (chunk : Chunk)
  | stderrData (iid : Nat) (msg : String)
  | procClose (iid : Nat)
  | procError (iid : Nat)
  | wsConnect (iid : Nat)
  | wsClose (iid : Nat) (vidx : Nat)
deriving DecidableEq

/-- Run one event handler to completion. -/
def step (s : ServerState) : Event → ServerState
  | .reqStart url p => (apiStartStream url p s).2
  | .reqStop p => (stopStream p s).2
  | .stdoutData iid c => onStdoutData iid c s
  | .stderrData iid m => onStderrData iid m s
  | .procClose iid => onProcExit iid s
  | .procError iid => onProcExit iid s
  | .wsConnect iid => onWsConnect iid s
  | .wsClose iid vidx => onWsClose iid vidx s

/-- The state at server start: empty registry, no instances. -/
def initState : ServerState :=
  { nextIid := 0, instances := [], streams := [] }

/-- Execute a sequence of event-loop turns from server start. -/
def run (evs : List Event) : ServerState :=
  evs.foldl step initState

/-- A state the single-threaded server can actually be in. -/
def Reachable (s : ServerState) : Prop :=
  ∃ evs, run evs = s

/-- A primitive side effect performed inside the synchronous body of
`startStream`, in program order. -/
inductive PrimStep where
  | bindRelayListener (port : Nat)
  | spawnTranscoder
  | insertRegistry (port : Nat)
deriving DecidableEq

/-- The order of the primitive side effects of `startStream`
(server.js lines 172-248): `new WebSocketServer({ port })` at line 176,
`spawn(FFMPEG_PATH, ...)` at line 179, `streams.set(wsPort, ...)` at
line 227. -/
def startStreamTrace (wsPort : Nat) : List PrimStep :=
  [PrimStep.bindRelayListener wsPort, PrimStep.spawnTranscoder,
   PrimStep.insertRegistry wsPort]

/-- The ordering discipline the specification demands of `startStream`:
a relay listener for `k` is bound only after `k` was inserted into the
registry. -/
def relayBoundOnlyAfterInsert (t : List PrimStep) (k : Nat) : Prop :=
  ∀ n, t.get? n = some (PrimStep.bindRelayListener k) →
    ∃ m, m < n ∧ t.get? m = some (PrimStep.insertRegistry k)

/-- The ordering `startStream` actually implements: the registry insert
for `k` does happen, later in the same synchronous call than the bind. -/
def insertFollowsBindInStart (k : Nat) : Prop :=
  ∃ n m, n < m ∧
    (startStreamTrace k).get? n = some (PrimStep.bindRelayListener k) ∧
    (startStreamTrace k).get? m = some (PrimStep.insertRegistry k)

/-- An instance whose subprocess may still be running or whose WebSocket
server is still bound. -/
def live (i : StreamInst) : Bool :=
  i.ffmpegAlive || !i.wssClosed

/-- At most one live transcoder handle and one live relay exist per port:
two live instances on the same port coincide. -/
def uniqueLivePerPort (s : ServerState) : Prop :=
  ∀ i ∈ s.instances, ∀ j ∈ s.instances,
    live i = true → live j = true → i.port = j.port → i = j

/-- Wellformedness of one instance's observable history:
the stored `totalBytes` field is still 0, the closure-local counter is
the total size of the relayed chunks, the surfaced diagnostics are
exactly the stderr lines without the progress marker, and every viewer
has received precisely a contiguous run of the published chunks starting
at its join point (the whole remaining run while it is OPEN). -/
def InstWF (i : StreamInst) : Prop :=
  i.totalBytes = 0 ∧
  i.localTotalBytes = (i.published.map List.length).sum ∧
  i.surfacedDiag = i.stderrSeen.filter (fun m => !(containsFrameMarker m)) ∧
  ∀ v ∈ i.viewers,
    v.joinedAt + v.received.length ≤ i.published.length ∧
    v.received = (i.published.drop v.joinedAt).take v.received.length ∧
    (v.vopen = true → v.joinedAt + v.received.length = i.published.length)

/-- The inductive invariant of the server: instance ids are fresh and
distinct, registry keys are distinct, every registry entry points at an
existing instance with that port, every live instance is registered
under its port, and every instance history is wellformed. -/
def Inv (s : ServerState) : Prop :=
  (∀ i ∈ s.instances, i.iid < s.nextIid) ∧
  (s.instances.map (fun i => i.iid)).Nodup ∧
  (s.streams.map (fun kv => kv.1)).Nodup ∧
  (∀ kv ∈ s.streams, ∃ i ∈ s.instances, i.iid = kv.2 ∧ i.port = kv.1) ∧
  (∀ i ∈ s.instances, live i = true → mapGet s.streams i.port = some i.iid) ∧
  (∀ i ∈ s.instances, InstWF i)

/-- Observable outcome of a start on a free port whose subprocess launch
is going to fail: the synchronous reply is already a success, the
session is registered at reply time, and only the later `'error'` event
removes it. -/
def launchFailureOutcome (s : ServerState) (url : String) (p : Nat) : Prop :=
  (apiStartStream url p s).1.success = true ∧
  mapGet (apiStartStream url p s).2.streams p = some s.nextIid ∧
  mapGet (onProcExit s.nextIid (apiStartStream url p s).2).streams p = none

/-- Observable outcome of two starts on the same key with nothing in
between: first succeeds, second fails with the already-in-use message
and changes nothing, and the registry holds exactly one entry for the
key. -/
def doubleStartOutcome (s : ServerState) (u1 u2 : String) (k : Nat) : Prop :=
  (apiStartStream u1 k s).1.success = true ∧
  (apiStartStream u2 k (apiStartStream u1 k s).2).1.success = false ∧
  (apiStartStream u2 k (apiStartStream u1 k s).2).1.message =
    s!"Port {k} is already in use" ∧
  (apiStartStream u2 k (apiStartStream u1 k s).2).2 = (apiStartStream u1 k s).2 ∧
  countKey (apiStartStream u1 k s).2.streams k = 1

/-- Observable outcome of stopping a registered session `k` backed by
instance `iid`: success carrying the final key, key gone from the
registry, and the instance's subprocess terminated and relay closed. -/
def stopRemoves (s : ServerState) (k iid : Nat) : Prop :=
  (stopStream k s).1.success = true ∧
  (stopStream k s).1.port = some k ∧
  mapGet (stopStream k s).2.streams k = none ∧
  ∃ j ∈ (stopStream k s).2.instances,
    j.iid = iid ∧ j.ffmpegAlive = false ∧ j.wssClosed = true

/-- Observable outcome of stopping an unregistered key `k`: the NotFound
failure, a completely unchanged state, and an exit-triggered teardown of
an instance on `k` likewise leaves the registry untouched. -/
def stopMissingNoop (s : ServerState) (k : Nat) : Prop :=
  (stopStream k s).1.success = false ∧
  (stopStream k s).1.message = s!"No stream found on port {k}" ∧
  (stopStream k s).2 = s ∧
  ∀ iid inst, getInst s.instances iid = some inst → inst.port = k →
    (onProcExit iid s).streams = s.streams

/-- Every OPEN viewer has received exactly the chunks published after its
own connection time, in publication order. -/
def viewersOrdered (s : ServerState) : Prop :=
  ∀ i ∈ s.instances, ∀ v ∈ i.viewers, v.vopen = true →
    v.received = i.published.drop v.joinedAt

/-- Every viewer (open or closed) has received exactly an initial run of
the chunks published from its join point on, and nothing published
before it joined. -/
def viewersNoReplay (s : ServerState) : Prop :=
  ∀ i ∈ s.instances, ∀ v ∈ i.viewers,
    v.received = (i.published.drop v.joinedAt).take v.received.length

/-- The surfaced diagnostics are exactly the stderr outputs without the
progress marker. -/
def diagFiltered (s : ServerState) : Prop :=
  ∀ i ∈ s.instances,
    i.surfacedDiag = i.stderrSeen.filter (fun m => !(containsFrameMarker m))

/-- Every instance's stored `totalBytes` field still reads 0, while the
closure-local counter carries the relayed byte total. -/
def bytesCounterFrozen (s : ServerState) : Prop :=
  ∀ i ∈ s.instances,
    i.totalBytes = 0 ∧
    i.localTotalBytes = (i.published.map List.length).sum

/-- Observable outcome of a subprocess exit or error event for the
registered instance `iid` on `inst.port`: the key leaves the registry,
the instance ends up fully torn down, and the port no longer appears in
the `/api/streams` output. -/
def exitTeardown (s : ServerState) (iid : Nat) (inst : StreamInst) : Prop :=
  mapGet (onProcExit iid s).streams inst.port = none ∧
  (∃ j ∈ (onProcExit iid s).instances,
    j.iid = iid ∧ j.ffmpegAlive = false ∧ j.wssClosed = true) ∧
  ∀ e ∈ listStreams (onProcExit iid s), e.port ≠ inst.port

theorem mapGet_none_iff {m : List (Nat × Nat)} {k : Nat} :
    mapGet m k = none ↔ ∀ kv ∈ m, kv.1 ≠ k := by
  induction m with
  | nil => simp [mapGet]
  | cons hd tl ih =>
    by_cases h : hd.1 = k
    · simp [mapGet, h]
    · simp [mapGet, h, ih]

theorem mapHas_false_get_none {m : List (Nat × Nat)} {k : Nat}
    (h : mapHas m k = false) : mapGet m k = none := by
  induction m with
  | nil => simp [mapGet]
  | cons hd tl ih =>
    simp [mapHas] at h
    simp [mapGet, h.1, ih h.2]

theorem mapGet_append_some {m m2 : List (Nat × Nat)} {k v : Nat}
    (h : mapGet m k = some v) : mapGet (m ++ m2) k = some v := by
  induction m with
  | nil => simp [mapGet] at h
  | cons hd tl ih =>
    by_cases hk : hd.1 = k
    · simpa [mapGet, hk] using h
    · simp [mapGet, hk] at h ⊢
      exact ih h

theorem mapGet_append_none {m m2 : List (Nat × Nat)} {k : Nat}
    (h : mapGet m k = none) : mapGet (m ++ m2) k = mapGet m2 k := by
  induction m with
  | nil => simp
  | cons hd tl ih =>
    by_cases hk : hd.1 = k
    · simp [mapGet, hk] at h
    · simp [mapGet, hk] at h ⊢
      exact ih h

theorem mapGet_delete_self {m : List (Nat × Nat)} {k : Nat} :
    mapGet (mapDelete m k) k = none := by
  induction m with
  | nil => simp [mapDelete, mapGet]
  | cons hd tl ih =>
    by_cases hk : hd.1 = k
    · simp [mapDelete, hk, ih]
    · simp [mapDelete, mapGet, hk, ih]

theorem mapGet_delete_ne {m : List (Nat × Nat)} {j k : Nat} (h : j ≠ k) :
    mapGet (mapDelete m k) j = mapGet m j := by
  have hkj : ¬ (k = j) := fun he => h he.symm
  induction m with
  | nil => simp [mapDelete]
  | cons hd tl ih =>
    by_cases hk : hd.1 = k
    · simp [mapDelete, mapGet, hk, hkj, ih]
    · simp [mapDelete, mapGet, hk, ih]

theorem mem_mapDelete {m : List (Nat × Nat)} {k : Nat} {kv : Nat × Nat}
    (h : kv ∈ mapDelete m k) : kv ∈ m := by
  induction m with
  | nil => simp [mapDelete] at h
  | cons hd tl ih =>
    by_cases hk : hd.1 = k
    · simp [mapDelete, hk] at h
      exact List.mem_cons_of_mem hd (ih h)
    · simp [mapDelete, hk] at h
      rcases h with rfl | h
      · exact List.mem_cons_self _ _
      · exact List.mem_cons_of_mem hd (ih h)

theorem keys_nodup_delete {m : List (Nat × Nat)} {k : Nat}
    (h : (m.map (fun kv => kv.1)).Nodup) :
    ((mapDelete m k).map (fun kv => kv.1)).Nodup := by
  induction m with
  | nil => simp [mapDelete]
  | cons hd tl ih =>
    simp at h
    by_cases hk : hd.1 = k
    · simp [mapDelete, hk]
      exact ih h.2
    · simp [mapDelete, hk, ih h.2]
      intro kv hkv
      exact h.1 kv (mem_mapDelete hkv)

theorem mapGet_some_mem {m : List (Nat × Nat)} {k v : Nat}
    (h : mapGet m k = some v) : (k, v) ∈ m := by
  induction m with
  | nil => simp [mapGet] at h
  | cons hd tl ih =>
    by_cases hk : hd.1 = k
    · simp [mapGet, hk] at h
      have he : (k, v) = hd := by
        obtain ⟨a, b⟩ := hd
        simp at hk h
        simp [hk, h]
      rw [he]
      exact List.mem_cons_self _ _
    · simp [mapGet, hk] at h
      exact List.mem_cons_of_mem hd (ih h)

theorem mapHas_append_self {m : List (Nat × Nat)} {k v : Nat} :
    mapHas (m ++ [(k, v)]) k = true := by
  induction m with
  | nil => simp [mapHas]
  | cons hd tl ih => simp [mapHas, ih]

theorem countKey_append {m m2 : List (Nat × Nat)} {k : Nat} :
    countKey (m ++ m2) k = countKey m k + countKey m2 k := by
  induction m with
  | nil => simp [countKey]
  | cons hd tl ih =>
    simp [countKey, ih]
    omega

theorem countKey_zero {m : List (Nat × Nat)} {k : Nat}
    (h : mapHas m k = false) : countKey m k = 0 := by
  induction m with
  | nil => simp [countKey]
  | cons hd tl ih =>
    simp [mapHas] at h
    simp [countKey, h.1, ih h.2]

theorem mem_updInst {l : List StreamInst} {iid : Nat} {f : StreamInst → StreamInst}
    {j : StreamInst} (h : j ∈ updInst l iid f) :
    ∃ i ∈ l, j = if i.iid = iid then f i else i := by
  rcases List.mem_map.1 h with ⟨i, hi, he⟩
  exact ⟨i, hi, he.symm⟩

theorem updInst_mem_of_mem {l : List StreamInst} {iid : Nat}
    {f : StreamInst → StreamInst} {i : StreamInst} (h : i ∈ l) :
    (if i.iid = iid then f i else i) ∈ updInst l iid f :=
  List.mem_map.2 ⟨i, h, rfl⟩

theorem updInst_map_iid {l : List StreamInst} {iid : Nat}
    {f : StreamInst → StreamInst} (hf : ∀ i, (f i).iid = i.iid) :
    (updInst l iid f).map (fun i => i.iid) = l.map (fun i => i.iid) := by
  unfold updInst
  rw [List.map_map]
  apply List.map_congr_left
  intro i _
  by_cases h : i.iid = iid <;> simp [h, hf]

theorem getInst_some {l : List StreamInst} {iid : Nat} {i : StreamInst}
    (h : getInst l iid = some i) : i ∈ l ∧ i.iid = iid := by
  induction l with
  | nil => simp [getInst] at h
  | cons hd tl ih =>
    by_cases hk : hd.iid = iid
    · simp [getInst, hk] at h
      subst h
      exact ⟨List.mem_cons_self hd tl, hk⟩
    · simp [getInst, hk] at h
      rcases ih h with ⟨h1, h2⟩
      exact ⟨List.mem_cons_of_mem hd h1, h2⟩

theorem getInst_append_of_all_ne {l l2 : List StreamInst} {iid : Nat}
    (h : ∀ i ∈ l, i.iid ≠ iid) : getInst (l ++ l2) iid = getInst l2 iid := by
  induction l with
  | nil => simp
  | cons hd tl ih =>
    have hhd : hd.iid ≠ iid := h hd (List.mem_cons_self hd tl)
    simp [getInst, hhd]
    exact ih fun i hi => h i (List.mem_cons_of_mem hd hi)

theorem mem_closeViewerAt {l : List Viewer} {n : Nat} {v : Viewer}
    (h : v ∈ closeViewerAt l n) :
    v ∈ l ∨ ∃ w ∈ l, v = { w with vopen := false } := by
  induction l generalizing n with
  | nil => simp [closeViewerAt] at h
  | cons hd tl ih =>
    cases n with
    | zero =>
      simp [closeViewerAt] at h
      rcases h with rfl | h
      · exact Or.inr ⟨hd, List.mem_cons_self _ _, rfl⟩
      · exact Or.inl (List.mem_cons_of_mem hd h)
    | succ m =>
      simp [closeViewerAt] at h
      rcases h with rfl | h
      · exact Or.inl (List.mem_cons_self _ _)
      · rcases ih h with h1 | ⟨w, hw, he⟩
        · exact Or.inl (List.mem_cons_of_mem hd h1)
        · exact Or.inr ⟨w, List.mem_cons_of_mem hd hw, he⟩

theorem instWF_publish {i : StreamInst} (c : Chunk) (h : InstWF i) :
    InstWF { i with
      localTotalBytes := i.localTotalBytes + c.length
      published := i.published ++ [c]
      viewers := i.viewers.map fun v =>
        if v.vopen then { v with received := v.received ++ [c] } else v } := by
  obtain ⟨h1, h2, h3, h4⟩ := h
  refine ⟨h1, ?_, h3, ?_⟩
  · simp [h2, List.sum_append]
  · intro w hw
    rcases List.mem_map.1 hw with ⟨v, hv, rfl⟩
    obtain ⟨hb, hs, ho⟩ := h4 v hv
    by_cases hop : v.vopen = true
    · have hlen : v.joinedAt + v.received.length = i.published.length := ho hop
      have hlen2 : (i.published.drop v.joinedAt).length = v.received.length := by
        rw [List.length_drop]; omega
      have hfull : i.published.drop v.joinedAt = v.received := by
        calc i.published.drop v.joinedAt
            = (i.published.drop v.joinedAt).take (i.published.drop v.joinedAt).length :=
              (List.take_length _).symm
          _ = (i.published.drop v.joinedAt).take v.received.length := by rw [hlen2]
          _ = v.received := hs.symm
      have hdrop : (i.published ++ [c]).drop v.joinedAt
          = i.published.drop v.joinedAt ++ [c] :=
        List.drop_append_of_le_length (by omega)
      simp only [hop, if_true]
      refine ⟨?_, ?_, ?_⟩
      · simp only [List.length_append, List.length_cons, List.length_nil]
        omega
      · show v.received ++ [c]
            = ((i.published ++ [c]).drop v.joinedAt).take (v.received ++ [c]).length
        rw [hdrop, hfull]
        exact (List.take_length _).symm
      · intro _
        simp only [List.length_append, List.length_cons, List.length_nil]
        omega
    · have hop2 : v.vopen = false := by
        cases hx : v.vopen
        · rfl
        · exact absurd hx hop
      rw [if_neg (by rw [hop2]; exact Bool.false_ne_true)]
      refine ⟨?_, ?_, ?_⟩
      · simp only [List.length_append, List.length_cons, List.length_nil]
        omega
      · show v.received = ((i.published ++ [c]).drop v.joinedAt).take v.received.length
        rw [List.drop_append_of_le_length (by omega : v.joinedAt ≤ i.published.length)]
        rw [List.take_append_of_le_length (by rw [List.length_drop]; omega)]
        exact hs
      · intro hx
        rw [hop2] at hx
        cases hx

theorem instWF_stderr {i : StreamInst} (msg : String) (h : InstWF i) :
    InstWF { i with
      stderrSeen := i.stderrSeen ++ [msg]
      surfacedDiag :=
        if containsFrameMarker msg then i.surfacedDiag
        else i.surfacedDiag ++ [msg] } := by
  obtain ⟨h1, h2, h3, h4⟩ := h
  refine ⟨h1, h2, ?_, h4⟩
  by_cases hc : containsFrameMarker msg
  · simp [hc, List.filter_append, h3]
  · simp [hc, List.filter_append, h3]

theorem instWF_connect {i : StreamInst} (h : InstWF i) :
    InstWF { i with
      viewers := i.viewers ++
        [{ joinedAt := i.published.length, vopen := true, received := [] }] } := by
  obtain ⟨h1, h2, h3, h4⟩ := h
  refine ⟨h1, h2, h3, ?_⟩
  intro v hv
  rcases List.mem_append.1 hv with hv | hv
  · exact h4 v hv
  · simp at hv
    subst hv
    exact ⟨by simp, by simp, by simp⟩

theorem instWF_closeViewer {i : StreamInst} (n : Nat) (h : InstWF i) :
    InstWF { i with viewers := closeViewerAt i.viewers n } := by
  obtain ⟨h1, h2, h3, h4⟩ := h
  refine ⟨h1, h2, h3, ?_⟩
  intro v hv
  rcases mem_closeViewerAt hv with hv | ⟨w, hw, rfl⟩
  · exact h4 v hv
  · obtain ⟨hb, hs, _⟩ := h4 w hw
    exact ⟨hb, hs, by simp⟩

theorem instWF_flags {i : StreamInst} (a w : Bool) (h : InstWF i) :
    InstWF { i with ffmpegAlive := a, wssClosed := w } := h

theorem inv_updInst_general {s : ServerState} {iid : Nat} {f : StreamInst → StreamInst}
    (hiid : ∀ i, (f i).iid = i.iid) (hport : ∀ i, (f i).port = i.port)
    (hlive : ∀ i, live (f i) = true → live i = true)
    (hwf : ∀ i, InstWF i → InstWF (f i))
    (h : Inv s) : Inv { s with instances := updInst s.instances iid f } := by
  obtain ⟨hA, hB, hC, hD, hE, hF⟩ := h
  refine ⟨?_, ?_, hC, ?_, ?_, ?_⟩
  · intro j hj
    rcases mem_updInst hj with ⟨i, hi, rfl⟩
    by_cases he : i.iid = iid
    · rw [if_pos he, hiid]
      exact hA i hi
    · rw [if_neg he]
      exact hA i hi
  · show ((updInst s.instances iid f).map fun i => i.iid).Nodup
    rw [updInst_map_iid hiid]
    exact hB
  · intro kv hkv
    rcases hD kv hkv with ⟨i, hi, h1, h2⟩
    refine ⟨if i.iid = iid then f i else i, updInst_mem_of_mem hi, ?_, ?_⟩
    · by_cases he : i.iid = iid
      · rw [if_pos he, hiid]
        exact h1
      · rw [if_neg he]
        exact h1
    · by_cases he : i.iid = iid
      · rw [if_pos he, hport]
        exact h2
      · rw [if_neg he]
        exact h2
  · intro j hj hlj
    rcases mem_updInst hj with ⟨i, hi, rfl⟩
    by_cases he : i.iid = iid
    · rw [if_pos he] at hlj ⊢
      rw [hiid, hport]
      exact hE i hi (hlive i hlj)
    · rw [if_neg he] at hlj ⊢
      exact hE i hi hlj
  · intro j hj
    rcases mem_updInst hj with ⟨i, hi, rfl⟩
    by_cases he : i.iid = iid
    · rw [if_pos he]
      exact hwf i (hF i hi)
    · rw [if_neg he]
      exact hF i hi

theorem inv_stop {s : ServerState} (p : Nat) (h : Inv s) : Inv (stopStream p s).2 := by
  obtain ⟨hA, hB, hC, hD, hE, hF⟩ := h
  cases hg : mapGet s.streams p with
  | none =>
    simp only [stopStream, hg]
    exact ⟨hA, hB, hC, hD, hE, hF⟩
  | some iid =>
    simp only [stopStream, hg]
    refine ⟨?_, ?_, ?_, ?_, ?_, ?_⟩
    · intro j hj
      rcases mem_updInst hj with ⟨i, hi, rfl⟩
      by_cases he : i.iid = iid
      · rw [if_pos he]
        exact hA i hi
      · rw [if_neg he]
        exact hA i hi
    · show ((updInst s.instances iid
        (fun i => { i with ffmpegAlive := false, wssClosed := true })).map
          fun i => i.iid).Nodup
      rw [@updInst_map_iid s.instances iid
        (fun i => { i with ffmpegAlive := false, wssClosed := true }) (fun i => rfl)]
      exact hB
    · exact keys_nodup_delete hC
    · intro kv hkv
      rcases hD kv (mem_mapDelete hkv) with ⟨i, hi, h1, h2⟩
      refine ⟨if i.iid = iid then { i with ffmpegAlive := false, wssClosed := true } else i,
        updInst_mem_of_mem hi, ?_, ?_⟩
      · by_cases he : i.iid = iid
        · rw [if_pos he]
          exact h1
        · rw [if_neg he]
          exact h1
      · by_cases he : i.iid = iid
        · rw [if_pos he]
          exact h2
        · rw [if_neg he]
          exact h2
    · intro j hj hlj
      rcases mem_updInst hj with ⟨i, hi, rfl⟩
      by_cases he : i.iid = iid
      · rw [if_pos he] at hlj
        simp [live] at hlj
      · rw [if_neg he] at hlj ⊢
        have hget := hE i hi hlj
        by_cases hp : i.port = p
        · rw [hp] at hget
          rw [hget] at hg
          cases hg
          exact absurd rfl he
        · rw [mapGet_delete_ne hp]
          exact hget
    · intro j hj
      rcases mem_updInst hj with ⟨i, hi, rfl⟩
      by_cases he : i.iid = iid
      · rw [if_pos he]
        exact instWF_flags false true (hF i hi)
      · rw [if_neg he]
        exact hF i hi

theorem inv_apiStart {s : ServerState} (url : String) (p : Nat) (h : Inv s) :
    Inv (apiStartStream url p s).2 := by
  obtain ⟨hA, hB, hC, hD, hE, hF⟩ := h
  cases hhas : mapHas s.streams p with
  | true =>
    simp only [apiStartStream, hhas, if_true]
    exact ⟨hA, hB, hC, hD, hE, hF⟩
  | false =>
    have hget0 : mapGet s.streams p = none := mapHas_false_get_none hhas
    have hkeys : ∀ kv ∈ s.streams, kv.1 ≠ p := mapGet_none_iff.1 hget0
    simp only [apiStartStream, hhas, Bool.false_eq_true, if_false, startStream,
      mapSet, ite_false]
    refine ⟨?_, ?_, ?_, ?_, ?_, ?_⟩
    · intro j hj
      rcases List.mem_append.1 hj with hj | hj
      · exact Nat.lt_succ_of_lt (hA j hj)
      · simp at hj
        subst hj
        exact Nat.lt_succ_self _
    · rw [List.map_append]
      rw [List.nodup_append]
      refine ⟨hB, by simp, ?_⟩
      intro a ha hb
      simp [newInst] at hb
      subst hb
      rcases List.mem_map.1 ha with ⟨i, hi, he⟩
      have := hA i hi
      omega
    · rw [List.map_append]
      rw [List.nodup_append]
      refine ⟨hC, by simp, ?_⟩
      intro a ha hb
      simp at hb
      subst hb
      rcases List.mem_map.1 ha with ⟨kv, hkv, he⟩
      exact hkeys kv hkv he
    · intro kv hkv
      rcases List.mem_append.1 hkv with hkv | hkv
      · rcases hD kv hkv with ⟨i, hi, h1, h2⟩
        exact ⟨i, List.mem_append_left _ hi, h1, h2⟩
      · simp at hkv
        subst hkv
        refine ⟨_, List.mem_append_right _ (List.mem_singleton_self _), rfl, rfl⟩
    · intro j hj hlj
      rcases List.mem_append.1 hj with hj | hj
      · exact mapGet_append_some (hE j hj hlj)
      · simp at hj
        subst hj
        show mapGet (s.streams ++ [(p, s.nextIid)]) p = some s.nextIid
        rw [mapGet_append_none hget0]
        simp [mapGet]
    · intro j hj
      rcases List.mem_append.1 hj with hj | hj
      · exact hF j hj
      · simp at hj
        subst hj
        exact ⟨rfl, by simp [newInst], rfl, by simp [newInst]⟩

theorem inv_procExit {s : ServerState} (iid : Nat) (h : Inv s) :
    Inv (onProcExit iid s) := by
  unfold onProcExit
  split
  · exact h
  · apply inv_stop
    refine inv_updInst_general ?_ ?_ ?_ ?_ h
    · intro i; rfl
    · intro i; rfl
    · intro i hl
      simp only [live] at hl ⊢
      simp at hl
      simp [hl]
    · intro i hw
      exact hw

theorem inv_step (s : ServerState) (e : Event) (h : Inv s) : Inv (step s e) := by
  cases e with
  | reqStart url p => exact inv_apiStart url p h
  | reqStop p => exact inv_stop p h
  | stdoutData iid c =>
    show Inv (onStdoutData iid c s)
    unfold onStdoutData
    refine inv_updInst_general ?_ ?_ ?_ ?_ h
    · intro i; rfl
    · intro i; rfl
    · intro i hl; exact hl
    · intro i hw; exact instWF_publish c hw
  | stderrData iid m =>
    show Inv (onStderrData iid m s)
    unfold onStderrData
    refine inv_updInst_general ?_ ?_ ?_ ?_ h
    · intro i; rfl
    · intro i; rfl
    · intro i hl; exact hl
    · intro i hw; exact instWF_stderr m hw
  | procClose iid => exact inv_procExit iid h
  | procError iid => exact inv_procExit iid h
  | wsConnect iid =>
    show Inv (onWsConnect iid s)
    unfold onWsConnect
    refine inv_updInst_general ?_ ?_ ?_ ?_ h
    · intro i
      by_cases hc : i.wssClosed = true
      · rw [if_pos hc]
      · rw [if_neg hc]
    · intro i
      by_cases hc : i.wssClosed = true
      · rw [if_pos hc]
      · rw [if_neg hc]
    · intro i hl
      by_cases hc : i.wssClosed = true
      · rw [if_pos hc] at hl
        exact hl
      · rw [if_neg hc] at hl
        exact hl
    · intro i hw
      by_cases hc : i.wssClosed = true
      · rw [if_pos hc]
        exact hw
      · rw [if_neg hc]
        exact instWF_connect hw
  | wsClose iid vidx =>
    show Inv (onWsClose iid vidx s)
    unfold onWsClose
    refine inv_updInst_general ?_ ?_ ?_ ?_ h
    · intro i; rfl
    · intro i; rfl
    · intro i hl; exact hl
    · intro i hw; exact instWF_closeViewer vidx hw

theorem inv_init : Inv initState := by
  refine ⟨?_, ?_, ?_, ?_, ?_, ?_⟩ <;> simp [initState]

theorem inv_foldl (evs : List Event) : ∀ s : ServerState, Inv s → Inv (evs.foldl step s) := by
  induction evs with
  | nil => intro s h; exact h
  | cons e tl ih => intro s h; exact ih (step s e) (inv_step s e h)

theorem reachable_inv {s : ServerState} (h : Reachable s) : Inv s := by
  obtain ⟨evs, rfl⟩ := h
  exact inv_foldl evs initState inv_init

theorem apiStart_already {s : ServerState} {u : String} {k : Nat}
    (hhas : mapHas s.streams k = true) :
    apiStartStream u k s =
      ({ success := false, message := s!"Port {k} is already in use",
         ws_url := none, port := none }, s) := by
  simp [apiStartStream, hhas]

/-- C1, counterexample to the claim as stated: in `startStream` the relay
listener for the key is bound (line 176) before the key is inserted into
the registry (line 227), so the first primitive step of the call is a
bind with no earlier registry insert. -/
theorem C1_counterexample :
    ¬ relayBoundOnlyAfterInsert (startStreamTrace 9999) 9999 := by
  intro h
  obtain ⟨m, hm, _⟩ := h 0 rfl
  exact absurd hm (Nat.not_lt_zero m)

/-- C1, amended: within `startStream` the registry insert for the key
does happen, after the bind, in the same synchronous guarded call; and
at every reachable state at most one live transcoder handle and one live
broadcast relay exist per key (two live instances on one port are the
same instance). -/
theorem C1_theorem (s : ServerState) (k : Nat) (hr : Reachable s) :
    uniqueLivePerPort s ∧ insertFollowsBindInStart k := by
  obtain ⟨_, hB, _, _, hE, _⟩ := reachable_inv hr
  constructor
  · intro i hi j hj hli hlj hp
    have g1 := hE i hi hli
    have g2 := hE j hj hlj
    rw [hp] at g1
    have g3 : some i.iid = some j.iid := g1.symm.trans g2
    exact List.inj_on_of_nodup_map hB hi hj (Option.some.inj g3)
  · exact ⟨0, 2, by omega, rfl, rfl⟩

/-- C1 witness: the invariant evaluated after one started stream. -/
theorem C1_witness :
    uniqueLivePerPort (run [Event.reqStart "rtsp://cam-a" 9000]) ∧
      insertFollowsBindInStart 9000 :=
  C1_theorem (run [Event.reqStart "rtsp://cam-a" 9000]) 9000
    ⟨[Event.reqStart "rtsp://cam-a" 9000], rfl⟩

/-- C2, counterexample to the claim as stated: a start whose subprocess
launch is going to fail (the launch outcome cannot influence the
synchronous reply) already returns `success: true` and has registered
the session, where the claim demands a failure reply and no
registration. -/
theorem C2_counterexample :
    (apiStartStream "rtsp://cam-gone" 9999 initState).1.success = true ∧
      mapGet (apiStartStream "rtsp://cam-gone" 9999 initState).2.streams 9999 =
        some 0 :=
  ⟨rfl, rfl⟩

/-- C2, amended: a start on a free key always gets the success reply and
registers the session, whether or not the spawn will fail; a later
`'error'` event from the failed subprocess tears the session down again,
so only after that event is no session registered for the key. -/
theorem C2_theorem (s : ServerState) (url : String) (p : Nat)
    (hr : Reachable s) (hhas : mapHas s.streams p = false) :
    launchFailureOutcome s url p := by
  obtain ⟨hA, _, _, _, _, _⟩ := reachable_inv hr
  have hget0 : mapGet s.streams p = none := mapHas_false_get_none hhas
  have hset : mapSet s.streams p s.nextIid = s.streams ++ [(p, s.nextIid)] := by
    simp [mapSet, hhas]
  have hget1 : mapGet (mapSet s.streams p s.nextIid) p = some s.nextIid := by
    rw [hset, mapGet_append_none hget0]
    simp [mapGet]
  refine ⟨?_, ?_, ?_⟩
  · simp [apiStartStream, hhas, startStream]
  · simp only [apiStartStream, hhas, Bool.false_eq_true, if_false, startStream]
    exact hget1
  · simp only [apiStartStream, hhas, Bool.false_eq_true, if_false, startStream]
    have hgi : getInst (s.instances ++ [newInst url p s.nextIid]) s.nextIid =
        some (newInst url p s.nextIid) := by
      rw [getInst_append_of_all_ne (fun i hi => Nat.ne_of_lt (hA i hi))]
      simp [getInst, newInst]
    unfold onProcExit
    simp only [hgi]
    simp only [stopStream, newInst, hget1]
    exact mapGet_delete_self

/-- C2 witness: the amended behaviour evaluated from the initial state. -/
theorem C2_witness : launchFailureOutcome initState "rtsp://cam-b" 9901 :=
  C2_theorem initState "rtsp://cam-b" 9901 ⟨[], rfl⟩ rfl

/-- C3: starting twice on the same free key without an intervening stop
or failure yields one success and then exactly one already-in-use
failure (`success: false`), the second call changes nothing, and the
registry holds exactly one entry for the key. -/
theorem C3_theorem (s : ServerState) (u1 u2 : String) (k : Nat)
    (hhas : mapHas s.streams k = false) : doubleStartOutcome s u1 u2 k := by
  have hset : mapSet s.streams k s.nextIid = s.streams ++ [(k, s.nextIid)] := by
    simp [mapSet, hhas]
  have hhas2 : mapHas (apiStartStream u1 k s).2.streams k = true := by
    simp only [apiStartStream, hhas, Bool.false_eq_true, if_false, startStream]
    rw [hset]
    exact mapHas_append_self
  refine ⟨?_, ?_, ?_, ?_, ?_⟩
  · simp [apiStartStream, hhas, startStream]
  · rw [apiStart_already hhas2]
  · rw [apiStart_already hhas2]
  · rw [apiStart_already hhas2]
  · simp only [apiStartStream, hhas, Bool.false_eq_true, if_false, startStream]
    rw [hset, countKey_append, countKey_zero hhas]
    simp [countKey]

/-- C3 witness: the double-start outcome evaluated from the initial
state. -/
theorem C3_witness : doubleStartOutcome initState "rtsp://cam-c" "rtsp://cam-d" 9902 :=
  C3_theorem initState "rtsp://cam-c" "rtsp://cam-d" 9902 rfl

/-- C4: stopping a registered key succeeds carrying the final key,
removes the key from the registry, and leaves the backing instance with
its subprocess terminated and its WebSocket server closed. -/
theorem C4_theorem (s : ServerState) (k iid : Nat)
    (hr : Reachable s) (hget : mapGet s.streams k = some iid) :
    stopRemoves s k iid := by
  obtain ⟨_, _, _, hD, _, _⟩ := reachable_inv hr
  refine ⟨?_, ?_, ?_, ?_⟩
  · simp [stopStream, hget]
  · simp [stopStream, hget]
  · simp only [stopStream, hget]
    exact mapGet_delete_self
  · simp only [stopStream, hget]
    rcases hD (k, iid) (mapGet_some_mem hget) with ⟨i, hi, h1, _⟩
    have h3 := @updInst_mem_of_mem s.instances iid
      (fun j => { j with ffmpegAlive := false, wssClosed := true }) i hi
    rw [if_pos h1] at h3
    exact ⟨_, h3, h1, rfl, rfl⟩

/-- C4 witness: stopping the one started stream. -/
theorem C4_witness : stopRemoves (run [Event.reqStart "rtsp://cam-e" 9903]) 9903 0 :=
  C4_theorem (run [Event.reqStart "rtsp://cam-e" 9903]) 9903 0
    ⟨[Event.reqStart "rtsp://cam-e" 9903], rfl⟩ rfl

/-- C5: stopping a key with no registered session returns the NotFound
failure and mutates nothing at all, and an exit-triggered teardown of an
instance on such a key likewise leaves the registry untouched. -/
theorem C5_theorem (s : ServerState) (k : Nat)
    (hget : mapGet s.streams k = none) : stopMissingNoop s k := by
  refine ⟨?_, ?_, ?_, ?_⟩
  · simp [stopStream, hget]
  · simp [stopStream, hget]
  · simp [stopStream, hget]
  · intro iid inst hgi hp
    unfold onProcExit
    simp only [hgi]
    rw [hp]
    simp only [stopStream, hget]

/-- C5 witness: a second stop after one teardown has already run. -/
theorem C5_witness :
    stopMissingNoop (run [Event.reqStart "rtsp://cam-f" 9904, Event.reqStop 9904]) 9904 :=
  C5_theorem (run [Event.reqStart "rtsp://cam-f" 9904, Event.reqStop 9904]) 9904 rfl

/-- C6: in every reachable state, every OPEN viewer of every session has
received exactly the chunks published after its own connection time, in
the exact order the transcoder produced them; concurrently connected
viewers therefore observe identical ordered sequences. -/
theorem C6_theorem (s : ServerState) (hr : Reachable s) : viewersOrdered s := by
  obtain ⟨_, _, _, _, _, hF⟩ := reachable_inv hr
  intro i hi v hv hop
  obtain ⟨_, _, _, h4⟩ := hF i hi
  obtain ⟨hb, hs, ho⟩ := h4 v hv
  have hlen : v.joinedAt + v.received.length = i.published.length := ho hop
  have hlen2 : (i.published.drop v.joinedAt).length = v.received.length := by
    rw [List.length_drop]
    omega
  rw [hs]
  calc (i.published.drop v.joinedAt).take v.received.length
      = (i.published.drop v.joinedAt).take (i.published.drop v.joinedAt).length := by
        rw [hlen2]
    _ = i.published.drop v.joinedAt := List.take_length _

/-- C6 witness: the ordering property evaluated on a run with one viewer
and two published chunks. -/
theorem C6_witness :
    viewersOrdered (run [Event.reqStart "rtsp://cam-g" 9905, Event.wsConnect 0,
      Event.stdoutData 0 [1, 2, 3], Event.stdoutData 0 [4, 5]]) :=
  C6_theorem _ ⟨[Event.reqStart "rtsp://cam-g" 9905, Event.wsConnect 0,
      Event.stdoutData 0 [1, 2, 3], Event.stdoutData 0 [4, 5]], rfl⟩

/-- C7: in every reachable state, every viewer has received precisely an
initial run of the chunks published from its join point on — never a
chunk published before its connection was accepted; there is no
buffering, catch-up or replay. -/
theorem C7_theorem (s : ServerState) (hr : Reachable s) : viewersNoReplay s := by
  obtain ⟨_, _, _, _, _, hF⟩ := reachable_inv hr
  intro i hi v hv
  obtain ⟨_, _, _, h4⟩ := hF i hi
  exact (h4 v hv).2.1

/-- C7 witness: a viewer connecting after a first chunk was published. -/
theorem C7_witness :
    viewersNoReplay (run [Event.reqStart "rtsp://cam-h" 9906,
      Event.stdoutData 0 [7], Event.wsConnect 0, Event.stdoutData 0 [8]]) :=
  C7_theorem _ ⟨[Event.reqStart "rtsp://cam-h" 9906,
      Event.stdoutData 0 [7], Event.wsConnect 0, Event.stdoutData 0 [8]], rfl⟩

/-- C8: a subprocess exit or error event for a registered session tears
it down with no caller action: the key leaves the registry, the handle
ends up terminated and the relay closed, and the port no longer appears
in the `/api/streams` listing. -/
theorem C8_theorem (s : ServerState) (iid : Nat) (inst : StreamInst)
    (hgi : getInst s.instances iid = some inst)
    (hreg : mapGet s.streams inst.port = some iid) :
    exitTeardown s iid inst := by
  have hmem := getInst_some hgi
  unfold exitTeardown onProcExit
  simp only [hgi]
  simp only [stopStream, hreg]
  refine ⟨mapGet_delete_self, ?_, ?_⟩
  · have h3 := @updInst_mem_of_mem s.instances iid
      (fun j => { j with ffmpegAlive := false }) inst hmem.1
    rw [if_pos hmem.2] at h3
    have h4 := @updInst_mem_of_mem
      (updInst s.instances iid (fun j => { j with ffmpegAlive := false })) iid
      (fun j => { j with ffmpegAlive := false, wssClosed := true })
      { inst with ffmpegAlive := false } h3
    rw [if_pos hmem.2] at h4
    exact ⟨_, h4, hmem.2, rfl, rfl⟩
  · intro e he
    simp only [listStreams] at he
    rcases List.mem_filterMap.1 he with ⟨kv, hkv, hmap⟩
    rcases Option.map_eq_some'.1 hmap with ⟨info, _, he2⟩
    have hport : e.port = kv.1 := by rw [← he2]
    rw [hport]
    exact mapGet_none_iff.1 mapGet_delete_self kv hkv

/-- C8 witness: an out-of-band subprocess exit on the one started
stream. -/
theorem C8_witness :
    exitTeardown (run [Event.reqStart "rtsp://cam-i" 9907]) 0
      { iid := 0, port := 9907, rtspUrl := "rtsp://cam-i",
        ffmpegAlive := true, wssClosed := false, viewers := [],
        published := [], stderrSeen := [], surfacedDiag := [],
        totalBytes := 0, localTotalBytes := 0 } :=
  C8_theorem (run [Event.reqStart "rtsp://cam-i" 9907]) 0
    { iid := 0, port := 9907, rtspUrl := "rtsp://cam-i",
      ffmpegAlive := true, wssClosed := false, viewers := [],
      published := [], stderrSeen := [], surfacedDiag := [],
      totalBytes := 0, localTotalBytes := 0 }
    rfl rfl

/-- C9: in every reachable state, the diagnostics a session has surfaced
are exactly its stderr outputs that do not contain the `frame=` progress
marker — marker lines are suppressed, all other lines are surfaced. -/
theorem C9_theorem (s : ServerState) (hr : Reachable s) : diagFiltered s := by
  obtain ⟨_, _, _, _, _, hF⟩ := reachable_inv hr
  intro i hi
  exact (hF i hi).2.2.1

/-- C9 witness: one progress line and one operational line on stderr. -/
theorem C9_witness :
    diagFiltered (run [Event.reqStart "rtsp://cam-j" 9908,
      Event.stderrData 0 "frame=  100 fps= 25", Event.stderrData 0 "Input #0, rtsp"]) :=
  C9_theorem _ ⟨[Event.reqStart "rtsp://cam-j" 9908,
      Event.stderrData 0 "frame=  100 fps= 25", Event.stderrData 0 "Input #0, rtsp"], rfl⟩

/-- C10: in every reachable state, every session's stored `totalBytes`
registry field still reads 0 — relaying increments only the
closure-local counter, which carries the full relayed byte total and is
never written back. -/
theorem C10_theorem (s : ServerState) (hr : Reachable s) : bytesCounterFrozen s := by
  obtain ⟨_, _, _, _, _, hF⟩ := reachable_inv hr
  intro i hi
  exact ⟨(hF i hi).1, (hF i hi).2.1⟩

/-- C10 witness: the counters after relaying one four-byte chunk. -/
theorem C10_witness :
    bytesCounterFrozen (run [Event.reqStart "rtsp://cam-k" 9909,
      Event.stdoutData 0 [1, 2, 3, 4]]) :=
  C10_theorem _ ⟨[Event.reqStart "rtsp://cam-k" 9909,
      Event.stdoutData 0 [1, 2, 3, 4]], rfl⟩

end Server
